import Mathlib

/-!
Verification of the Disk-Scheduler repository.

The repository contains two Python files, `src/diskscheduler.py` and
`src/ui.py`, each defining a `DiskScheduler` class with the four policy
methods `fcfs`, `sstf`, `scan` and `cscan`.  This file gives a shallow
embedding of both classes (cylinder positions and costs are `Int`, the
mutable request list is an explicit `List Int`, `raise ValueError` becomes
`Except String`) and proves or refutes the frozen claims about them.
-/

/-- Replay of a service sequence from an initial head position: the sum of
absolute differences between consecutive positions, the initial position
taken as position 0.  This is the independent recomputation the spec
describes for the total seek distance. -/
def replaySeek (h : Int) : List Int → Int
  | [] => 0
  | x :: xs => |x - h| + replaySeek x xs

/-- Embedding of the Python loop pattern
`for request in L: sequence.append(request); cost += abs(request - current);
current = request`, shared by every policy method of both classes.  Returns
the visited sequence, the accumulated cost and the final head position. -/
def serviceRun (current : Int) : List Int → List Int × Int × Int
  | [] => ([], 0, current)
  | r :: rs =>
    let p := serviceRun r rs
    (r :: p.1, |r - current| + p.2.1, p.2.2)

/-- Embedding of Python `min(l, key=key)` on a list of cylinders: returns
the first element of `l` attaining the minimal key, `none` on the empty
list (where Python would raise). -/
def pyMin (key : Int → Int) : List Int → Option Int
  | [] => none
  | x :: xs =>
    match pyMin key xs with
    | none => some x
    | some m => if key x ≤ key m then some x else some m

/-- Embedding of Python `sorted(l)` on a list of integers (ascending). -/
def sortAsc (l : List Int) : List Int := l.insertionSort (· ≤ ·)

/-- Embedding of Python `sorted(l, reverse=True)` (descending). -/
def sortDesc (l : List Int) : List Int := l.insertionSort (· ≥ ·)

/-- Embedding of the SSTF `while remaining:` loop of both classes: pick the
request closest to the current position (ties broken by Python `min`, the
first one encountered in the remaining list), service it, remove it with
`remaining.remove(closest)` (first occurrence), repeat.  The loop runs one
iteration per element, so fuel equal to the list length is exact. -/
def sstfLoop : Nat → Int → List Int → List Int × Int
  | 0, _, _ => ([], 0)
  | n + 1, current, remaining =>
    match pyMin (fun x => |x - current|) remaining with
    | none => ([], 0)
    | some closest =>
      let p := sstfLoop n closest (remaining.erase closest)
      (closest :: p.1, |closest - current| + p.2)

namespace DS

/-- State of the `DiskScheduler` class of `src/diskscheduler.py`.  The
constructor also stores `current_position` (initialised to the initial
position); the policy methods never read it. -/
structure Scheduler where
  initial_position : Int
  current_position : Int
  max_cylinder : Int
  requests : List Int

/-- Embedding of `DiskScheduler.__init__` of `src/diskscheduler.py`: no
validation of any argument, empty request list. -/
def Scheduler.init (initial_position : Int) (max_cylinder : Int) : Scheduler :=
  ⟨initial_position, initial_position, max_cylinder, []⟩

/-- Embedding of `DiskScheduler.add_request` of `src/diskscheduler.py`:
append the cylinder when `0 <= cylinder <= max_cylinder`, otherwise raise
`ValueError` (the state is returned unchanged only through the absence of
an `ok` result; the original object is never mutated on the error path). -/
def add_request (s : Scheduler) (cylinder : Int) : Except String Scheduler :=
  if 0 ≤ cylinder ∧ cylinder ≤ s.max_cylinder then
    Except.ok ⟨s.initial_position, s.current_position, s.max_cylinder,
      s.requests ++ [cylinder]⟩
  else
    Except.error "Request must be between 0 and max_cylinder"

/-- Embedding of `DiskScheduler.fcfs` of `src/diskscheduler.py`. -/
def fcfs (s : Scheduler) : List Int × Int :=
  let p := serviceRun s.initial_position s.requests
  (p.1, p.2.1)

/-- Embedding of `DiskScheduler.sstf` of `src/diskscheduler.py`. -/
def sstf (s : Scheduler) : List Int × Int :=
  sstfLoop s.requests.length s.initial_position s.requests

/-- Embedding of `DiskScheduler.scan` of `src/diskscheduler.py`.  The
Python code tests `if direction == 'right'` and otherwise falls into the
`else` branch: any direction other than `"right"` behaves as left. -/
def scan (s : Scheduler) (direction : String) : List Int × Int :=
  if direction = "right" then
    let current := s.initial_position
    let remaining := sortAsc s.requests
    let right := remaining.filter (fun r => decide (current ≤ r))
    let left := sortDesc (remaining.filter (fun r => decide (r < current)))
    let p1 := serviceRun current right
    let p2 : List Int × Int × Int :=
      if right ≠ [] ∧ p1.2.2 ≠ s.max_cylinder then
        ([s.max_cylinder], |s.max_cylinder - p1.2.2|, s.max_cylinder)
      else ([], 0, p1.2.2)
    let p3 := serviceRun p2.2.2 left
    (p1.1 ++ p2.1 ++ p3.1, p1.2.1 + p2.2.1 + p3.2.1)
  else
    let current := s.initial_position
    let remaining := sortAsc s.requests
    let left := sortDesc (remaining.filter (fun r => decide (r ≤ current)))
    let right := sortAsc (remaining.filter (fun r => decide (current < r)))
    let p1 := serviceRun current left
    let p2 : List Int × Int × Int :=
      if left ≠ [] ∧ p1.2.2 ≠ 0 then
        ([0], |0 - p1.2.2|, 0)
      else ([], 0, p1.2.2)
    let p3 := serviceRun p2.2.2 right
    (p1.1 ++ p2.1 ++ p3.1, p1.2.1 + p2.2.1 + p3.2.1)

/-- Embedding of `DiskScheduler.cscan` of `src/diskscheduler.py`.  The
boundary `max_cylinder` is appended only `if right:`, but the wrap to `0`
is unconditional — it happens even when the request list is empty. -/
def cscan (s : Scheduler) : List Int × Int :=
  let current := s.initial_position
  let remaining := sortAsc s.requests
  let right := remaining.filter (fun r => decide (current ≤ r))
  let left := remaining.filter (fun r => decide (r < current))
  let p1 := serviceRun current right
  let p2 : List Int × Int × Int :=
    if right ≠ [] then
      ([s.max_cylinder], |s.max_cylinder - p1.2.2|, s.max_cylinder)
    else ([], 0, p1.2.2)
  let wrapCost := |0 - p2.2.2|
  let p3 := serviceRun 0 left
  (p1.1 ++ p2.1 ++ [0] ++ p3.1, p1.2.1 + p2.2.1 + wrapCost + p3.2.1)

end DS

namespace UI

/-- State of the `DiskScheduler` class of `src/ui.py` (no
`current_position` field). -/
structure Scheduler where
  initial_position : Int
  max_cylinder : Int
  requests : List Int

/-- Embedding of `DiskScheduler.__init__` of `src/ui.py`: no validation. -/
def Scheduler.init (initial_position : Int) (max_cylinder : Int) : Scheduler :=
  ⟨initial_position, max_cylinder, []⟩

/-- Embedding of `DiskScheduler.add_request` of `src/ui.py` (identical to
the one in `src/diskscheduler.py`). -/
def add_request (s : Scheduler) (cylinder : Int) : Except String Scheduler :=
  if 0 ≤ cylinder ∧ cylinder ≤ s.max_cylinder then
    Except.ok ⟨s.initial_position, s.max_cylinder, s.requests ++ [cylinder]⟩
  else
    Except.error "Request must be between 0 and max_cylinder"

/-- Embedding of `DiskScheduler.fcfs` of `src/ui.py`: the sequence is a
copy of the request list itself, the cost the walk over it. -/
def fcfs (s : Scheduler) : List Int × Int :=
  (s.requests, (serviceRun s.initial_position s.requests).2.1)

/-- Embedding of `DiskScheduler.sstf` of `src/ui.py`: early return
`([], 0)` on an empty request list, then the same loop as in
`src/diskscheduler.py`. -/
def sstf (s : Scheduler) : List Int × Int :=
  if s.requests = [] then ([], 0)
  else sstfLoop s.requests.length s.initial_position s.requests

/-- Embedding of `DiskScheduler.scan` of `src/ui.py`: early return on an
empty request list, then the same branches as in `src/diskscheduler.py`. -/
def scan (s : Scheduler) (direction : String) : List Int × Int :=
  if s.requests = [] then ([], 0)
  else if direction = "right" then
    let current := s.initial_position
    let remaining := sortAsc s.requests
    let right := remaining.filter (fun r => decide (current ≤ r))
    let left := sortDesc (remaining.filter (fun r => decide (r < current)))
    let p1 := serviceRun current right
    let p2 : List Int × Int × Int :=
      if right ≠ [] ∧ p1.2.2 ≠ s.max_cylinder then
        ([s.max_cylinder], |s.max_cylinder - p1.2.2|, s.max_cylinder)
      else ([], 0, p1.2.2)
    let p3 := serviceRun p2.2.2 left
    (p1.1 ++ p2.1 ++ p3.1, p1.2.1 + p2.2.1 + p3.2.1)
  else
    let current := s.initial_position
    let remaining := sortAsc s.requests
    let left := sortDesc (remaining.filter (fun r => decide (r ≤ current)))
    let right := sortAsc (remaining.filter (fun r => decide (current < r)))
    let p1 := serviceRun current left
    let p2 : List Int × Int × Int :=
      if left ≠ [] ∧ p1.2.2 ≠ 0 then
        ([0], |0 - p1.2.2|, 0)
      else ([], 0, p1.2.2)
    let p3 := serviceRun p2.2.2 right
    (p1.1 ++ p2.1 ++ p3.1, p1.2.1 + p2.2.1 + p3.2.1)

/-- Embedding of `DiskScheduler.cscan` of `src/ui.py`: early return on an
empty request list, then the same body as in `src/diskscheduler.py`. -/
def cscan (s : Scheduler) : List Int × Int :=
  if s.requests = [] then ([], 0)
  else
    let current := s.initial_position
    let remaining := sortAsc s.requests
    let right := remaining.filter (fun r => decide (current ≤ r))
    let left := remaining.filter (fun r => decide (r < current))
    let p1 := serviceRun current right
    let p2 : List Int × Int × Int :=
      if right ≠ [] then
        ([s.max_cylinder], |s.max_cylinder - p1.2.2|, s.max_cylinder)
      else ([], 0, p1.2.2)
    let wrapCost := |0 - p2.2.2|
    let p3 := serviceRun 0 left
    (p1.1 ++ p2.1 ++ [0] ++ p3.1, p1.2.1 + p2.2.1 + wrapCost + p3.2.1)

end UI

namespace DS

/-- The list `right` computed by `scan` with direction right: the sorted
requests at or to the right of the initial position. -/
def rightOf (s : Scheduler) : List Int :=
  (sortAsc s.requests).filter (fun r => decide (s.initial_position ≤ r))

/-- The list `left` computed by `scan` with direction right: the requests
strictly to the left of the initial position, in descending order. -/
def leftDescOf (s : Scheduler) : List Int :=
  sortDesc ((sortAsc s.requests).filter (fun r => decide (r < s.initial_position)))

/-- The list `left` computed by `scan` with direction left: the requests at
or to the left of the initial position, in descending order. -/
def leftLeDescOf (s : Scheduler) : List Int :=
  sortDesc ((sortAsc s.requests).filter (fun r => decide (r ≤ s.initial_position)))

/-- The list `right` computed by `scan` with direction left: the requests
strictly to the right of the initial position, in ascending order. -/
def rightGtOf (s : Scheduler) : List Int :=
  sortAsc ((sortAsc s.requests).filter (fun r => decide (s.initial_position < r)))

end DS

theorem serviceRun_fst (c : Int) (l : List Int) : (serviceRun c l).1 = l := by
  induction l generalizing c with
  | nil => rfl
  | cons r rs ih => simp [serviceRun, ih]

theorem serviceRun_cost (c : Int) (l : List Int) :
    (serviceRun c l).2.1 = replaySeek c l := by
  induction l generalizing c with
  | nil => rfl
  | cons r rs ih => simp [serviceRun, replaySeek, ih]

theorem serviceRun_fin (c : Int) (l : List Int) :
    (serviceRun c l).2.2 = l.getLastD c := by
  induction l generalizing c with
  | nil => rfl
  | cons r rs ih =>
    simp only [serviceRun]
    rw [ih, List.getLastD_cons]

theorem replaySeek_append (h : Int) (xs ys : List Int) :
    replaySeek h (xs ++ ys) = replaySeek h xs + replaySeek (xs.getLastD h) ys := by
  induction xs generalizing h with
  | nil => simp [replaySeek, List.getLastD_nil]
  | cons x xs ih =>
    simp only [List.cons_append, replaySeek, List.append_eq, ih,
      List.getLastD_cons]
    ring

theorem pyMin_eq_none_iff (key : Int → Int) (l : List Int) :
    pyMin key l = none ↔ l = [] := by
  cases l with
  | nil => simp [pyMin]
  | cons x xs =>
    simp only [pyMin]
    cases pyMin key xs with
    | none => simp
    | some m =>
      by_cases h : key x ≤ key m <;> simp [h]

theorem pyMin_mem {key : Int → Int} {l : List Int} {c : Int}
    (h : pyMin key l = some c) : c ∈ l := by
  induction l with
  | nil => simp [pyMin] at h
  | cons x xs ih =>
    simp only [pyMin] at h
    cases hm : pyMin key xs with
    | none =>
      rw [hm] at h
      simp at h
      simp [h]
    | some m =>
      rw [hm] at h
      by_cases hle : key x ≤ key m
      · simp [hle] at h
        simp [h]
      · simp [hle] at h
        exact List.mem_cons_of_mem x (ih (hm.trans (congrArg some h)))

theorem pyMin_firstMin {key : Int → Int} {l : List Int} {c : Int}
    (h : pyMin key l = some c) :
    ∃ l1 l2, l = l1 ++ c :: l2 ∧ (∀ x ∈ l, key c ≤ key x) ∧
      ∀ x ∈ l1, key c < key x := by
  induction l generalizing c with
  | nil => simp [pyMin] at h
  | cons x xs ih =>
    simp only [pyMin] at h
    cases hm : pyMin key xs with
    | none =>
      have hxs : xs = [] := (pyMin_eq_none_iff key xs).mp hm
      rw [hm] at h
      simp at h
      subst h hxs
      exact ⟨[], [], rfl, by simp, by simp⟩
    | some m =>
      rw [hm] at h
      obtain ⟨l1, l2, heq, hmin, hstrict⟩ := ih hm
      by_cases hle : key x ≤ key m
      · simp [hle] at h
        subst h
        refine ⟨[], xs, rfl, ?_, by simp⟩
        intro y hy
        rcases List.mem_cons.mp hy with hy | hy
        · exact le_of_eq (congrArg key hy.symm)
        · exact hle.trans (hmin y hy)
      · simp [hle] at h
        subst h
        refine ⟨x :: l1, l2, by simp [heq], ?_, ?_⟩
        · intro y hy
          rcases List.mem_cons.mp hy with hy | hy
          · subst hy
            exact le_of_lt (lt_of_not_le hle)
          · exact hmin y hy
        · intro y hy
          rcases List.mem_cons.mp hy with hy | hy
          · subst hy
            exact lt_of_not_le hle
          · exact hstrict y hy

theorem erase_first_of_not_mem {c : Int} {l1 : List Int} (l2 : List Int)
    (h : c ∉ l1) : (l1 ++ c :: l2).erase c = l1 ++ l2 := by
  induction l1 with
  | nil => simp [List.erase_cons_head]
  | cons a l1 ih =>
    have ha : a ≠ c := fun hac => h (hac ▸ List.mem_cons_self a l1)
    have h1 : c ∉ l1 := fun hc => h (List.mem_cons_of_mem a hc)
    have : ((a :: l1) ++ c :: l2).erase c = a :: ((l1 ++ c :: l2).erase c) := by
      simp only [List.cons_append]
      exact List.erase_cons_tail (by simpa using ha)
    rw [this, ih h1]
    rfl

theorem sstfLoop_cost (n : Nat) (c : Int) (l : List Int) :
    (sstfLoop n c l).2 = replaySeek c (sstfLoop n c l).1 := by
  induction n generalizing c l with
  | zero => rfl
  | succ n ih =>
    simp only [sstfLoop]
    cases pyMin (fun x => |x - c|) l with
    | none => rfl
    | some closest => simp [replaySeek, ih]

theorem sstfLoop_length (n : Nat) (c : Int) (l : List Int) (h : l.length = n) :
    (sstfLoop n c l).1.length = n := by
  induction n generalizing c l with
  | zero => rfl
  | succ n ih =>
    have hne : l ≠ [] := by
      intro he
      rw [he] at h
      simp at h
    cases hm : pyMin (fun x => |x - c|) l with
    | none => exact absurd ((pyMin_eq_none_iff _ l).mp hm) hne
    | some closest =>
      have hmem : closest ∈ l := pyMin_mem hm
      have herase : (l.erase closest).length = n := by
        rw [List.length_erase_of_mem hmem, h]
        rfl
      simp only [sstfLoop, hm]
      simp [ih closest (l.erase closest) herase]

theorem ds_fcfs_replay (s : DS.Scheduler) :
    (DS.fcfs s).2 = replaySeek s.initial_position (DS.fcfs s).1 := by
  simp [DS.fcfs, serviceRun_cost, serviceRun_fst]

theorem ds_sstf_replay (s : DS.Scheduler) :
    (DS.sstf s).2 = replaySeek s.initial_position (DS.sstf s).1 :=
  sstfLoop_cost _ _ _

theorem ds_scan_replay (s : DS.Scheduler) (d : String) :
    (DS.scan s d).2 = replaySeek s.initial_position (DS.scan s d).1 := by
  simp only [DS.scan]
  split
  · split
    · simp [serviceRun_cost, serviceRun_fst, serviceRun_fin, replaySeek_append,
        replaySeek, List.getLastD_cons, List.getLastD_nil]
      ring
    · simp [serviceRun_cost, serviceRun_fst, serviceRun_fin, replaySeek_append]
  · split
    · simp [serviceRun_cost, serviceRun_fst, serviceRun_fin, replaySeek_append,
        replaySeek, List.getLastD_cons, List.getLastD_nil]
      ring
    · simp [serviceRun_cost, serviceRun_fst, serviceRun_fin, replaySeek_append]

theorem ds_cscan_replay (s : DS.Scheduler) :
    (DS.cscan s).2 = replaySeek s.initial_position (DS.cscan s).1 := by
  simp only [DS.cscan]
  split
  · simp [serviceRun_cost, serviceRun_fst, serviceRun_fin, replaySeek_append,
      replaySeek, List.getLastD_cons, List.getLastD_nil]
    ring
  · simp [serviceRun_cost, serviceRun_fst, serviceRun_fin, replaySeek_append,
      replaySeek, List.getLastD_cons, List.getLastD_nil]
    ring

theorem ui_fcfs_replay (t : UI.Scheduler) :
    (UI.fcfs t).2 = replaySeek t.initial_position (UI.fcfs t).1 := by
  simp [UI.fcfs, serviceRun_cost]

theorem ui_sstf_replay (t : UI.Scheduler) :
    (UI.sstf t).2 = replaySeek t.initial_position (UI.sstf t).1 := by
  unfold UI.sstf
  split
  · rfl
  · exact sstfLoop_cost _ _ _

theorem ui_scan_replay (t : UI.Scheduler) (d : String) :
    (UI.scan t d).2 = replaySeek t.initial_position (UI.scan t d).1 := by
  simp only [UI.scan]
  split
  · rfl
  · split
    · split
      · simp [serviceRun_cost, serviceRun_fst, serviceRun_fin, replaySeek_append,
          replaySeek, List.getLastD_cons, List.getLastD_nil]
        ring
      · simp [serviceRun_cost, serviceRun_fst, serviceRun_fin, replaySeek_append]
    · split
      · simp [serviceRun_cost, serviceRun_fst, serviceRun_fin, replaySeek_append,
          replaySeek, List.getLastD_cons, List.getLastD_nil]
        ring
      · simp [serviceRun_cost, serviceRun_fst, serviceRun_fin, replaySeek_append]

theorem ui_cscan_replay (t : UI.Scheduler) :
    (UI.cscan t).2 = replaySeek t.initial_position (UI.cscan t).1 := by
  simp only [UI.cscan]
  split
  · rfl
  · split
    · simp [serviceRun_cost, serviceRun_fst, serviceRun_fin, replaySeek_append,
        replaySeek, List.getLastD_cons, List.getLastD_nil]
      ring
    · simp [serviceRun_cost, serviceRun_fst, serviceRun_fin, replaySeek_append,
        replaySeek, List.getLastD_cons, List.getLastD_nil]
      ring

/-- C5: for every input and each of the four policies, in both
implementations, the reported total seek distance equals the sum of
absolute differences obtained by replaying the returned sequence from the
initial head position. -/
theorem c5_total_seek_replay (s : DS.Scheduler) (t : UI.Scheduler) (d : String) :
    (DS.fcfs s).2 = replaySeek s.initial_position (DS.fcfs s).1 ∧
    (DS.sstf s).2 = replaySeek s.initial_position (DS.sstf s).1 ∧
    (DS.scan s d).2 = replaySeek s.initial_position (DS.scan s d).1 ∧
    (DS.cscan s).2 = replaySeek s.initial_position (DS.cscan s).1 ∧
    (UI.fcfs t).2 = replaySeek t.initial_position (UI.fcfs t).1 ∧
    (UI.sstf t).2 = replaySeek t.initial_position (UI.sstf t).1 ∧
    (UI.scan t d).2 = replaySeek t.initial_position (UI.scan t d).1 ∧
    (UI.cscan t).2 = replaySeek t.initial_position (UI.cscan t).1 :=
  ⟨ds_fcfs_replay s, ds_sstf_replay s, ds_scan_replay s d, ds_cscan_replay s,
   ui_fcfs_replay t, ui_sstf_replay t, ui_scan_replay t d, ui_cscan_replay t⟩

/-- C6: for every input and in both implementations, fcfs returns the
request list itself in its original insertion order, with total seek equal
to the walk over it starting at the initial head position. -/
theorem c6_fcfs_order_preserving (s : DS.Scheduler) (t : UI.Scheduler) :
    DS.fcfs s = (s.requests, replaySeek s.initial_position s.requests) ∧
    UI.fcfs t = (t.requests, replaySeek t.initial_position t.requests) := by
  constructor <;> simp [DS.fcfs, UI.fcfs, serviceRun_fst, serviceRun_cost]

/-- C9: in both implementations, add_request appends an in-range cylinder
to the request list and raises ValueError on an out-of-range one, in which
case no new request list is produced (no clamping, no partial insert). -/
theorem c9_add_request (s : DS.Scheduler) (t : UI.Scheduler) (c : Int) :
    ((0 ≤ c ∧ c ≤ s.max_cylinder) →
      DS.add_request s c = Except.ok ⟨s.initial_position, s.current_position,
        s.max_cylinder, s.requests ++ [c]⟩) ∧
    (¬(0 ≤ c ∧ c ≤ s.max_cylinder) →
      DS.add_request s c
        = Except.error "Request must be between 0 and max_cylinder") ∧
    ((0 ≤ c ∧ c ≤ t.max_cylinder) →
      UI.add_request t c = Except.ok ⟨t.initial_position, t.max_cylinder,
        t.requests ++ [c]⟩) ∧
    (¬(0 ≤ c ∧ c ≤ t.max_cylinder) →
      UI.add_request t c
        = Except.error "Request must be between 0 and max_cylinder") := by
  refine ⟨fun hin => ?_, fun hout => ?_, fun hin => ?_, fun hout => ?_⟩ <;>
    simp [DS.add_request, UI.add_request, *]

theorem c9_add_request_witness :
    DS.add_request ⟨50, 50, 200, [10]⟩ 200
      = Except.ok ⟨50, 50, 200, [10, 200]⟩ ∧
    DS.add_request ⟨50, 50, 200, [10]⟩ 201
      = Except.error "Request must be between 0 and max_cylinder" := by
  have h := c9_add_request ⟨50, 50, 200, [10]⟩ ⟨50, 200, [10]⟩ 200
  have h2 := c9_add_request ⟨50, 50, 200, [10]⟩ ⟨50, 200, [10]⟩ 201
  exact ⟨h.1 (by decide), h2.2.1 (by decide)⟩

theorem c1_counterexample :
    DS.cscan ⟨50, 50, 200, []⟩ = ([0], 50) ∧
    DS.cscan ⟨50, 50, 200, []⟩ ≠ ([], 0) := by decide

/-- C1 (amended): on an empty request list, fcfs, sstf and scan (any
direction) of both implementations and the cscan of `src/ui.py` return
`([], 0)`, but the cscan of `src/diskscheduler.py` performs its
unconditional wrap and returns `([0], h)` with total seek `h`. -/
theorem c1_empty_requests (h M : Int) (hh : 0 ≤ h) :
    DS.fcfs ⟨h, h, M, []⟩ = ([], 0) ∧
    DS.sstf ⟨h, h, M, []⟩ = ([], 0) ∧
    (∀ d, DS.scan ⟨h, h, M, []⟩ d = ([], 0)) ∧
    DS.cscan ⟨h, h, M, []⟩ = ([0], h) ∧
    UI.fcfs ⟨h, M, []⟩ = ([], 0) ∧
    UI.sstf ⟨h, M, []⟩ = ([], 0) ∧
    (∀ d, UI.scan ⟨h, M, []⟩ d = ([], 0)) ∧
    UI.cscan ⟨h, M, []⟩ = ([], 0) := by
  refine ⟨?_, ?_, ?_, ?_, ?_, ?_, ?_, ?_⟩
  · simp [DS.fcfs, serviceRun]
  · rfl
  · intro d
    by_cases hd : d = "right" <;>
      simp [DS.scan, hd, sortAsc, sortDesc, List.insertionSort, serviceRun]
  · simp [DS.cscan, sortAsc, List.insertionSort, serviceRun]
    exact hh
  · simp [UI.fcfs, serviceRun]
  · rfl
  · intro d
    simp [UI.scan]
  · rfl

theorem c1_empty_requests_witness :
    DS.cscan ⟨50, 50, 200, []⟩ = ([0], 50) ∧
    UI.cscan ⟨50, 200, []⟩ = ([], 0) :=
  ⟨(c1_empty_requests 50 200 (by decide)).2.2.2.1,
   (c1_empty_requests 50 200 (by decide)).2.2.2.2.2.2.2⟩

theorem c2_counterexample :
    DS.cscan ⟨50, 50, 200, [10]⟩ = ([0, 10], 60) ∧
    (200 : Int) ∉ (DS.cscan ⟨50, 50, 200, [10]⟩).1 := by decide

/-- C2 (amended): on a non-empty request list, cscan visits the boundary
`max_cylinder` immediately followed by `0` (both counted in the total seek,
which replays the sequence) if and only if at least one request is at or to
the right of the initial position; when every request is strictly to the
left, the head wraps directly to `0` and `max_cylinder` never appears in
the sequence. -/
theorem c2_cscan_boundary (s : DS.Scheduler) (hne : s.requests ≠ []) :
    ((∃ r ∈ s.requests, s.initial_position ≤ r) →
      (DS.cscan s).1
        = (sortAsc s.requests).filter (fun r => decide (s.initial_position ≤ r))
          ++ s.max_cylinder :: 0 ::
          (sortAsc s.requests).filter (fun r => decide (r < s.initial_position)) ∧
      (DS.cscan s).2 = replaySeek s.initial_position (DS.cscan s).1) ∧
    ((∀ r ∈ s.requests, r < s.initial_position) →
      (DS.cscan s).1
        = 0 :: (sortAsc s.requests).filter
            (fun r => decide (r < s.initial_position)) ∧
      (0 < s.max_cylinder → s.initial_position ≤ s.max_cylinder →
        s.max_cylinder ∉ (DS.cscan s).1)) := by
  constructor
  · intro hex
    have hrne : (sortAsc s.requests).filter
        (fun r => decide (s.initial_position ≤ r)) ≠ [] := by
      obtain ⟨r, hr, hle⟩ := hex
      exact List.ne_nil_of_mem (List.mem_filter.mpr
        ⟨(List.mem_insertionSort _).mpr hr, by simpa using hle⟩)
    constructor
    · simp only [DS.cscan]
      rw [if_pos (by exact hrne)]
      simp [serviceRun_fst]
    · exact ds_cscan_replay s
  · intro hall
    have hrnil : (sortAsc s.requests).filter
        (fun r => decide (s.initial_position ≤ r)) = [] := by
      rw [List.filter_eq_nil_iff]
      intro a ha
      have : a < s.initial_position :=
        hall a ((List.mem_insertionSort _).mp ha)
      simpa using not_le.mpr this
    have hseq : (DS.cscan s).1
        = 0 :: (sortAsc s.requests).filter
            (fun r => decide (r < s.initial_position)) := by
      simp only [DS.cscan]
      rw [if_neg (by simp [hrnil])]
      simp [hrnil, serviceRun_fst, serviceRun, sortAsc]
      exact hall
    refine ⟨hseq, fun hM hhM hmem => ?_⟩
    rw [hseq] at hmem
    rcases List.mem_cons.mp hmem with hmem | hmem
    · exact absurd hmem (ne_of_gt hM)
    · have := List.mem_filter.mp hmem
      have hlt : s.max_cylinder < s.initial_position := by simpa using this.2
      exact absurd hhM (not_le.mpr hlt)

theorem c2_cscan_boundary_witness :
    (DS.cscan ⟨50, 50, 200, [82, 170, 43, 140, 24, 16, 190]⟩).1
      = [82, 140, 170, 190, 200, 0, 16, 24, 43] ∧
    (DS.cscan ⟨50, 50, 200, [10]⟩).1 = [0, 10] := by
  have h1 := (c2_cscan_boundary ⟨50, 50, 200, [82, 170, 43, 140, 24, 16, 190]⟩
    (by decide)).1 (by decide)
  have h2 := (c2_cscan_boundary ⟨50, 50, 200, [10]⟩ (by decide)).2 (by decide)
  constructor
  · rw [h1.1]; decide
  · rw [h2.1]; decide

theorem c3_counterexample :
    DS.scan ⟨50, 50, 200, [10, 80]⟩ "up" = ([10, 0, 80], 130) ∧
    DS.scan ⟨50, 50, 200, [10, 80]⟩ "up"
      = DS.scan ⟨50, 50, 200, [10, 80]⟩ "left" := by decide

/-- C3 (amended): neither implementation raises any error for an invalid
scan direction; every direction value other than `"right"` falls into the
`else` branch and silently behaves exactly as direction `"left"`, returning
a schedule. -/
theorem c3_scan_direction_default (s : DS.Scheduler) (t : UI.Scheduler)
    (d : String) (hd : d ≠ "right") :
    DS.scan s d = DS.scan s "left" ∧ UI.scan t d = UI.scan t "left" := by
  constructor
  · simp only [DS.scan]
    rw [if_neg hd, if_neg (by decide : ¬("left" : String) = "right")]
  · by_cases hreq : t.requests = []
    · simp [UI.scan, hreq]
    · simp only [UI.scan]
      rw [if_neg hreq, if_neg hreq, if_neg hd,
        if_neg (by decide : ¬("left" : String) = "right")]

theorem c3_scan_direction_default_witness :
    DS.scan ⟨50, 50, 200, [10, 80]⟩ "up"
      = DS.scan ⟨50, 50, 200, [10, 80]⟩ "left" :=
  (c3_scan_direction_default ⟨50, 50, 200, [10, 80]⟩ ⟨50, 200, [10, 80]⟩
    "up" (by decide)).1

theorem c4_counterexample :
    DS.add_request (DS.Scheduler.init (-1) 200) 10
      = Except.ok ⟨-1, -1, 200, [10]⟩ ∧
    DS.fcfs ⟨-1, -1, 200, [10]⟩ = ([10], 11) ∧
    UI.fcfs ⟨201, 200, [10]⟩ = ([10], 191) :=
  ⟨rfl, by decide, by decide⟩

/-- C4 (amended): the initial head position is never validated: both
constructors accept any `h`, including values outside `[0, max_cylinder]`,
and the policy operations compute ordinary schedules from that `h` instead
of failing; only request cylinders are validated, at add_request. -/
theorem c4_no_head_validation (h M : Int) (R : List Int)
    (hout : ¬(0 ≤ h ∧ h ≤ M)) :
    DS.Scheduler.init h M = ⟨h, h, M, []⟩ ∧
    UI.Scheduler.init h M = ⟨h, M, []⟩ ∧
    DS.fcfs ⟨h, h, M, R⟩ = (R, replaySeek h R) ∧
    UI.fcfs ⟨h, M, R⟩ = (R, replaySeek h R) := by
  refine ⟨rfl, rfl, ?_, ?_⟩ <;>
    simp [DS.fcfs, UI.fcfs, serviceRun_fst, serviceRun_cost]

theorem c4_no_head_validation_witness :
    DS.fcfs ⟨-1, -1, 200, [10]⟩ = ([10], replaySeek (-1) [10]) :=
  (c4_no_head_validation (-1) 200 [10] (by decide)).2.2.1

/-- C7: sstf services exactly as many requests as there are, and at each
step it picks, among the remaining requests in their inherited order, the
first one attaining the minimal distance to the current head position, then
recurses on the remaining list with that occurrence removed. -/
theorem c7_sstf_greedy (s : DS.Scheduler) (hne : s.requests ≠ []) :
    (DS.sstf s).1.length = s.requests.length ∧
    ∃ c l1 l2, s.requests = l1 ++ c :: l2 ∧
      (∀ x ∈ s.requests,
        |c - s.initial_position| ≤ |x - s.initial_position|) ∧
      (∀ x ∈ l1, |c - s.initial_position| < |x - s.initial_position|) ∧
      DS.sstf s
        = (c :: (sstfLoop (l1 ++ l2).length c (l1 ++ l2)).1,
           |c - s.initial_position|
             + (sstfLoop (l1 ++ l2).length c (l1 ++ l2)).2) := by
  constructor
  · exact sstfLoop_length _ _ _ rfl
  · obtain ⟨c, hm⟩ : ∃ c,
        pyMin (fun x => |x - s.initial_position|) s.requests = some c := by
      cases hp : pyMin (fun x => |x - s.initial_position|) s.requests with
      | none => exact absurd ((pyMin_eq_none_iff _ _).mp hp) hne
      | some c => exact ⟨c, rfl⟩
    obtain ⟨l1, l2, heq, hmin, hstrict⟩ := pyMin_firstMin hm
    have hnm : c ∉ l1 := fun hc => lt_irrefl _ (hstrict c hc)
    have herase : s.requests.erase c = l1 ++ l2 := by
      rw [heq]
      exact erase_first_of_not_mem l2 hnm
    have hlen : s.requests.length = (l1 ++ l2).length + 1 := by
      rw [heq]
      simp only [List.length_append, List.length_cons]
      omega
    refine ⟨c, l1, l2, heq, hmin, hstrict, ?_⟩
    show sstfLoop s.requests.length s.initial_position s.requests = _
    rw [hlen]
    simp only [sstfLoop, hm]
    rw [herase]

theorem c7_sstf_greedy_witness :
    (DS.sstf ⟨50, 50, 100, [60, 40]⟩).1.length = 2 ∧
    DS.sstf ⟨50, 50, 100, [60, 40]⟩ = ([60, 40], 30) := by
  have h := c7_sstf_greedy ⟨50, 50, 100, [60, 40]⟩ (by decide)
  exact ⟨h.1, by decide⟩

/-- C8: scan appends the boundary (max_cylinder going right, 0 going left)
to the sequence exactly when at least one request lies on the side being
serviced first and the head does not already stand at the boundary after
servicing that side; otherwise no boundary point is appended.  The total
seek always replays the returned sequence, so the boundary distance is
counted exactly when the boundary is appended. -/
theorem c8_scan_boundary (s : DS.Scheduler) :
    ((DS.rightOf s ≠ [] ∧
        (DS.rightOf s).getLastD s.initial_position ≠ s.max_cylinder) →
      (DS.scan s "right").1
        = DS.rightOf s ++ s.max_cylinder :: DS.leftDescOf s) ∧
    (¬(DS.rightOf s ≠ [] ∧
        (DS.rightOf s).getLastD s.initial_position ≠ s.max_cylinder) →
      (DS.scan s "right").1 = DS.rightOf s ++ DS.leftDescOf s) ∧
    ((DS.leftLeDescOf s ≠ [] ∧
        (DS.leftLeDescOf s).getLastD s.initial_position ≠ 0) →
      (DS.scan s "left").1 = DS.leftLeDescOf s ++ 0 :: DS.rightGtOf s) ∧
    (¬(DS.leftLeDescOf s ≠ [] ∧
        (DS.leftLeDescOf s).getLastD s.initial_position ≠ 0) →
      (DS.scan s "left").1 = DS.leftLeDescOf s ++ DS.rightGtOf s) ∧
    (DS.scan s "right").2
      = replaySeek s.initial_position (DS.scan s "right").1 ∧
    (DS.scan s "left").2
      = replaySeek s.initial_position (DS.scan s "left").1 := by
  refine ⟨fun hc => ?_, fun hc => ?_, fun hc => ?_, fun hc => ?_,
    ds_scan_replay s "right", ds_scan_replay s "left"⟩ <;>
    simp only [DS.rightOf, DS.leftDescOf, DS.leftLeDescOf, DS.rightGtOf]
      at hc ⊢ <;>
    simp only [DS.scan, if_pos rfl,
      if_neg (by decide : ¬("left" : String) = "right"), serviceRun_fin]
  · rw [if_pos hc]
    simp [serviceRun_fst]
  · rw [if_neg hc]
    simp [serviceRun_fst]
  · rw [if_pos hc]
    simp [serviceRun_fst]
  · rw [if_neg hc]
    simp [serviceRun_fst]

theorem c8_scan_boundary_witness :
    (DS.scan ⟨50, 50, 200, [82, 170, 43, 140, 24, 16, 190]⟩ "right").1
      = [82, 140, 170, 190, 200, 43, 24, 16] ∧
    (DS.scan ⟨50, 50, 200, [82, 170, 43, 140, 24, 16, 190]⟩ "left").1
      = [43, 24, 16, 0, 82, 140, 170, 190] := by
  have h := c8_scan_boundary ⟨50, 50, 200, [82, 170, 43, 140, 24, 16, 190]⟩
  constructor
  · rw [h.1 (by decide)]
    decide
  · rw [h.2.2.1 (by decide)]
    decide

/-- C10: for a valid configuration and a non-empty request list, the
`DiskScheduler` of `src/diskscheduler.py` and the `DiskScheduler` of
`src/ui.py` return identical results for fcfs, sstf, scan (any direction)
and cscan. -/
theorem c10_ds_ui_equiv (h M : Int) (R : List Int)
    (hval : 0 ≤ h ∧ h ≤ M ∧ ∀ r ∈ R, 0 ≤ r ∧ r ≤ M) (hne : R ≠ [])
    (d : String) :
    DS.fcfs ⟨h, h, M, R⟩ = UI.fcfs ⟨h, M, R⟩ ∧
    DS.sstf ⟨h, h, M, R⟩ = UI.sstf ⟨h, M, R⟩ ∧
    DS.scan ⟨h, h, M, R⟩ d = UI.scan ⟨h, M, R⟩ d ∧
    DS.cscan ⟨h, h, M, R⟩ = UI.cscan ⟨h, M, R⟩ := by
  refine ⟨?_, ?_, ?_, ?_⟩
  · simp [DS.fcfs, UI.fcfs, serviceRun_fst]
  · simp [DS.sstf, UI.sstf, hne]
  · simp [DS.scan, UI.scan, hne]
  · simp [DS.cscan, UI.cscan, hne]

theorem c10_ds_ui_equiv_witness :
    DS.scan ⟨50, 50, 200, [82, 170, 43, 140, 24, 16, 190]⟩ "right"
      = UI.scan ⟨50, 200, [82, 170, 43, 140, 24, 16, 190]⟩ "right" ∧
    DS.cscan ⟨50, 50, 200, [82, 170, 43, 140, 24, 16, 190]⟩
      = UI.cscan ⟨50, 200, [82, 170, 43, 140, 24, 16, 190]⟩ := by
  have h := c10_ds_ui_equiv 50 200 [82, 170, 43, 140, 24, 16, 190]
    (by decide) (by decide) "right"
  exact ⟨h.2.2.1, h.2.2.2⟩
